import Mathlib

/-!
Verification development for the `soup` HTML-querying library.

The definitions below are a shallow embedding of the library's core:

* `src/pattern.rs`   — the `Pattern` trait and its primitive impls;
* `src/attribute.rs` — the list-aware attribute matching rule;
* `src/find.rs`      — query predicates, the `QueryWrapper` conjunction
  stack, the `QueryBuilder`, and the lazy pre-order traversal
  (`build_iter` / `IntoIterator for QueryBuilder`);
* `src/node_ext.rs`  — node conveniences `get`, `attrs`, `parent`.

DOM nodes (from `html5ever::rcdom`) are embedded as a rose tree of node
data; reference-counted handles are embedded as node values, and the lazy
iterators of the source as the lists of items they yield (the iterators
are pure and finite, so the list of yielded items determines them).
-/

namespace Soup

/-- Embeds `html5ever::rcdom::NodeData`: the variant data carried by a DOM
node.  Only `element` carries a name and an attribute list; attributes are
(name, value) pairs in insertion order. -/
inductive NodeData where
  | document : NodeData
  | doctype (name publicId systemId : String) : NodeData
  | text (contents : String) : NodeData
  | comment (contents : String) : NodeData
  | processingInstruction (target data : String) : NodeData
  | element (name : String) (attrs : List (String × String)) : NodeData
deriving DecidableEq

/-- Embeds `html5ever::rcdom::Node`: node data plus the ordered child
list.  The parent back-reference is not part of the value (it is a weak
cell in the source and is modelled separately where a claim needs it). -/
inductive Node where
  | mk (data : NodeData) (children : List Node) : Node

/-- Accessor for the `data` field of a node. -/
def Node.data : Node → NodeData
  | .mk d _ => d

/-- Accessor for the `children` field of a node. -/
def Node.children : Node → List Node
  | .mk _ cs => cs

/-- Embeds the `Pattern` trait (`src/pattern.rs`).  The primitive impls
are string literals (exact equality), booleans (constant), and — standing
for any user-supplied impl, including the optional regex adapter — an
arbitrary total boolean function on strings. -/
inductive Pattern where
  | lit (s : String) : Pattern
  | bool (b : Bool) : Pattern
  | fn (f : String → Bool) : Pattern

/-- Embeds `Pattern::matches` for each impl in `src/pattern.rs`:
`&str`/`String` compare for equality, `bool` returns itself, and a
user impl applies its function. -/
def Pattern.matches : Pattern → String → Bool
  | .lit s, haystack => s == haystack
  | .bool b, _ => b
  | .fn f, haystack => f haystack

/-- ASCII-range character lowercasing, used to embed Rust's
`str::to_lowercase` on the ASCII names the library compares
(`attribute.rs` and `node_ext.rs` lowercase tag and attribute names
before comparing them). -/
def toLowerStr (s : String) : String :=
  ⟨s.data.map Char.toLower⟩

/-- Embeds `attribute::is_multiple`: whether `(tag_name, attr_name)` is a
list-aware pair, compared after lowercasing both names. -/
def is_multiple (tag_name attr_name : String) : Bool :=
  let t := toLowerStr tag_name
  let a := toLowerStr attr_name
  a == "class" || a == "accesskey" || a == "dropzone" ||
    (t == "a" && a == "rel") || (t == "a" && a == "rev") ||
    (t == "link" && a == "rel") || (t == "link" && a == "rev") ||
    (t == "tr" && a == "headers") || (t == "th" && a == "headers") ||
    (t == "form" && a == "accept-charset") ||
    (t == "object" && a == "archive") ||
    (t == "area" && a == "rel") ||
    (t == "icon" && a == "sizes") ||
    (t == "iframe" && a == "sandbox") ||
    (t == "output" && a == "for")

/-- Embeds Rust's `char::is_whitespace`: the Unicode `White_Space`
property (this is what `match_list_attr` splits on — note it is wider
than ASCII whitespace). -/
def rustIsWhitespace (c : Char) : Bool :=
  let v := c.val
  (0x9 ≤ v && v ≤ 0xD) || v == 0x20 || v == 0x85 || v == 0xA0 ||
    v == 0x1680 || (0x2000 ≤ v && v ≤ 0x200A) ||
    v == 0x2028 || v == 0x2029 || v == 0x202F || v == 0x205F || v == 0x3000

/-- Embeds Rust's `str::split(pred)` on a character predicate: cuts the
character list at every character satisfying `p`, dropping the separator
and keeping empty segments (so `"" → [""]` and consecutive separators
produce empty parts), exactly as Rust's `Split` iterator does. -/
def rustSplit (p : Char → Bool) : List Char → List (List Char)
  | [] => [[]]
  | c :: cs =>
    if p c then [] :: rustSplit p cs
    else
      match rustSplit p cs with
      | [] => [[c]]
      | t :: ts => (c :: t) :: ts

/-- Embeds Rust's `str::trim`: drops leading and trailing characters
satisfying `char::is_whitespace`. -/
def rustTrim (s : List Char) : List Char :=
  ((s.dropWhile rustIsWhitespace).reverse.dropWhile rustIsWhitespace).reverse

/-- Embeds `attribute::match_list_attr`: splits the haystack on
whitespace, trims each part, and succeeds if the needle pattern matches
some part. -/
def match_list_attr (needle : Pattern) (haystack : String) : Bool :=
  (rustSplit rustIsWhitespace haystack.data).any
    (fun part => needle.matches ⟨rustTrim part⟩)

/-- Embeds `attribute::list_aware_match`: on an element, scan the
attributes in order; for each attribute whose name matches the key
pattern, use token matching when `(tag, attr-name)` is list-aware and
whole-value matching otherwise.  Non-elements never match. -/
def list_aware_match (node : Node) (attr_name attr_value : Pattern) : Bool :=
  match node.data with
  | .element name attrs =>
    attrs.any (fun a =>
      attr_name.matches a.1 &&
        (if is_multiple name a.1 then match_list_attr attr_value a.2
         else attr_value.matches a.2))
  | _ => false

/-- Embeds the atomic queries of `src/find.rs`: `TagQuery`, `AttrQuery`,
and the `()` identity query. -/
inductive SoupQuery where
  | tag (p : Pattern) : SoupQuery
  | attr (key value : Pattern) : SoupQuery
  | unit : SoupQuery

/-- Embeds `Query::matches` for each atomic query: `TagQuery` matches elements
whose local name satisfies the pattern (non-elements never match),
`AttrQuery` delegates to `list_aware_match`, and `()` matches
everything. -/
def SoupQuery.qmatches : SoupQuery → Node → Bool
  | .tag p, n =>
    match n.data with
    | .element name _ => p.matches name
    | _ => false
  | .attr k v, n => list_aware_match n k v
  | .unit, _ => true

/-- Embeds the `QueryWrapper` chain as the list of queries pushed onto
it, most recent first (`QueryWrapper::wrap` puts the new query in
`inner` and the old chain in `next`; the base `EmptyQueryWrapper` has
`inner = ()` and `next = None`).  `Query for QueryWrapper` computes
`next_match && inner_match`, which this mirrors; the empty chain is the
`()` base, which matches everything. -/
def wrapperMatches : List SoupQuery → Node → Bool
  | [], _ => true
  | q :: rest, n => wrapperMatches rest n && q.qmatches n

/-- Embeds the `QueryBuilder` state (`src/find.rs`): root handle, the
query chain (most recent first), the optional result cap, and the
recursion flag. -/
structure QueryBuilder where
  handle : Node
  queries : List SoupQuery
  limit : Option Nat
  recursive : Bool

/-- Embeds `QueryBuilder::new`: empty query chain, no limit, recursive
by default. -/
def QueryBuilder.new (handle : Node) : QueryBuilder :=
  { handle := handle, queries := [], limit := none, recursive := true }

/-- Embeds `QueryBuilder::limit`. -/
def QueryBuilder.setLimit (b : QueryBuilder) (l : Nat) : QueryBuilder :=
  { b with limit := some l }

/-- Embeds `QueryBuilder::recursive`. -/
def QueryBuilder.setRecursive (b : QueryBuilder) (r : Bool) : QueryBuilder :=
  { b with recursive := r }

/-- Embeds `QueryBuilder::push_query` (`QueryWrapper::wrap` puts the new
query at the head of the chain). -/
def QueryBuilder.push_query (b : QueryBuilder) (q : SoupQuery) : QueryBuilder :=
  { b with queries := q :: b.queries }

/-- Embeds `QueryBuilder::tag`. -/
def QueryBuilder.tag (b : QueryBuilder) (p : Pattern) : QueryBuilder :=
  b.push_query (.tag p)

/-- Embeds `QueryBuilder::attr`. -/
def QueryBuilder.attr (b : QueryBuilder) (name value : Pattern) : QueryBuilder :=
  b.push_query (.attr name value)

/-- Embeds `QueryBuilder::attr_name` (= `attr(name, true)`). -/
def QueryBuilder.attr_name (b : QueryBuilder) (name : Pattern) : QueryBuilder :=
  b.push_query (.attr name (.bool true))

/-- Embeds `QueryBuilder::attr_value` (= `attr(true, value)`). -/
def QueryBuilder.attr_value (b : QueryBuilder) (value : Pattern) : QueryBuilder :=
  b.push_query (.attr (.bool true) value)

/-- Embeds `QueryBuilder::class` (= `attr("class", value)`). -/
def QueryBuilder.class (b : QueryBuilder) (value : Pattern) : QueryBuilder :=
  b.attr (.lit "class") value

mutual
/-- Embeds `find::build_iter`, as the list of items the built iterator
yields.  The `NodeIterator` for the root yields one item — `some root`
when the query chain matches, `none` otherwise; if the remaining level
budget is `some 0` the function returns just that, else it chains the
children's iterators (each built with the budget decremented) after
it. -/
def build_iter (node : Node) (queries : List SoupQuery) (levels : Option Nat) :
    List (Option Node) :=
  match node with
  | .mk d cs =>
    let root : List (Option Node) :=
      [if wrapperMatches queries (.mk d cs) then some (.mk d cs) else none]
    if levels = some 0 then root
    else root ++ build_iter_children cs queries (levels.map (· - 1))

/-- The fold over `handle.children` in `build_iter`, chaining each
child's iterator in order. -/
def build_iter_children (cs : List Node) (queries : List SoupQuery)
    (levels : Option Nat) : List (Option Node) :=
  match cs with
  | [] => []
  | c :: rest =>
    build_iter c queries levels ++ build_iter_children rest queries levels
end

/-- Embeds the limit application at the end of `into_iter`: a set limit
truncates the match stream with `take`, no limit leaves it alone. -/
def applyLimit : Option Nat → List Node → List Node
  | some l, xs => xs.take l
  | none, xs => xs

/-- Embeds `IntoIterator for QueryBuilder`, as the list of nodes the
iterator yields: recursion flag becomes the level budget (`None` when
recursive, `Some 1` otherwise), the option stream is flattened
(`flat_map(|node| node)` keeps the `Some`s), and a set limit truncates
with `take`. -/
def QueryBuilder.intoIter (b : QueryBuilder) : List Node :=
  let levels : Option Nat := if b.recursive then none else some 1
  applyLimit b.limit ((build_iter b.handle b.queries levels).filterMap id)

/-- Embeds `QueryBuilder::find`: set `limit = Some(1)`, then take the
first yielded item (`nth(0)`). -/
def QueryBuilder.find (b : QueryBuilder) : Option Node :=
  ({ b with limit := some 1 } : QueryBuilder).intoIter.head?

/-- Embeds `QueryBuilder::find_all` (= `into_iter`). -/
def QueryBuilder.find_all (b : QueryBuilder) : List Node :=
  b.intoIter

mutual
/-- The pre-order (document-order) DFS visit sequence of a subtree: the
root, then each child's visit sequence in order.  This is the reference
order the specification's ordering guarantee speaks about. -/
def preorder (node : Node) : List Node :=
  match node with
  | .mk d cs => .mk d cs :: preorderList cs

/-- Pre-order visit of a forest, in order. -/
def preorderList (cs : List Node) : List Node :=
  match cs with
  | [] => []
  | c :: rest => preorder c ++ preorderList rest
end

/-- Embeds the attribute loop inside `NodeExt::get` (`src/node_ext.rs`):
walk the attributes in order and return the value of the first one whose
lowercased name equals the lowercased query name. -/
def getLoop : List (String × String) → String → Option String
  | [], _ => none
  | a :: rest, attr =>
    if toLowerStr a.1 == toLowerStr attr then some a.2 else getLoop rest attr

/-- Embeds `NodeExt::get`: on an element, run the case-insensitive
first-match loop over its attributes; on any other node return `none`. -/
def NodeExt.get (n : Node) (attr : String) : Option String :=
  match n.data with
  | .element _ attrs => getLoop attrs attr
  | _ => none

/-- Embeds `BTreeMap` insertion on an association list kept sorted by
key: the key is placed at its ordered position, and an equal key has its
value replaced. -/
def btreeInsert : List (String × String) → String → String → List (String × String)
  | [], k, v => [(k, v)]
  | (k', v') :: rest, k, v =>
    if k < k' then (k, v) :: (k', v') :: rest
    else if k = k' then (k, v) :: rest
    else (k', v') :: btreeInsert rest k v

/-- Embeds `BTreeMap` lookup on the association list: the first (and in
a well-formed map only) pair whose key equals the query key. -/
def btreeLookup : List (String × String) → String → Option String
  | [], _ => none
  | (k', v') :: rest, k => if k = k' then some v' else btreeLookup rest k

/-- Embeds `NodeExt::attrs`: on an element, collect the (name, value)
pairs, in iteration order, into a `BTreeMap` (so a repeated name keeps
the last value inserted); on any other node the map is empty. -/
def NodeExt.attrs (n : Node) : List (String × String) :=
  match n.data with
  | .element _ attrs => attrs.foldl (fun m a => btreeInsert m a.1 a.2) []
  | _ => []

/-- Embeds the weak parent back-reference cell of a node
(`Cell<Option<WeakRef<Node>>>` in `rcdom`).  A weak reference is
embedded by its upgrade result — `some` the parent node while the tree
is alive. -/
def ParentCell : Type := Option (Option Node)

/-- Embeds `Cell::take`: returns the held value and leaves the cell
holding `None`. -/
def cellTake (c : ParentCell) : (Option (Option Node)) × ParentCell :=
  (c, (none : Option (Option Node)))

/-- Embeds `Cell::set`: replaces the cell contents. -/
def cellSet (_ : ParentCell) (v : Option (Option Node)) : ParentCell :=
  v

/-- Embeds `WeakRef::upgrade` under the embedding of weak references by
their upgrade result. -/
def weakUpgrade (w : Option Node) : Option Node :=
  w

/-- Embeds `NodeExt::parent` as a transformer of the parent cell state:
`take` the cell (leaving `None`), clone the taken value, `set` the cell
back to it, and return the upgraded parent handle.  The first component
is the cell state after the call, the second the returned handle. -/
def NodeExt.parent (cell : ParentCell) : ParentCell × Option Node :=
  let taken := cellTake cell
  let parent := taken.1
  let parent_node := parent
  let cellAfter := cellSet taken.2 parent
  (cellAfter, parent_node.bind weakUpgrade)

/-- Follows the wording of the specification (§4.3), for comparison with
the implementation: ASCII whitespace — TAB, LF, FF, CR, SPACE. -/
def asciiIsWhitespace (c : Char) : Bool :=
  c.val == 0x9 || c.val == 0xA || c.val == 0xC || c.val == 0xD || c.val == 0x20

/-- Follows the wording of the specification (§4.3), for comparison with
the implementation: the list-aware attribute predicate as the spec words
it — the value is tokenized by ASCII whitespace, each token is trimmed,
and the value pattern must match some token of an attribute whose name
matches the key pattern. -/
def specListAwareMatchAscii (node : Node) (attr_name attr_value : Pattern) : Bool :=
  match node.data with
  | .element _ attrs =>
    attrs.any (fun a =>
      attr_name.matches a.1 &&
        (rustSplit asciiIsWhitespace a.2.data).any
          (fun part => attr_value.matches ⟨rustTrim part⟩))
  | _ => false

/-! ### Concrete fixtures -/

/-- A document node with no children. -/
def docLeaf : Node := .mk .document []

/-- A builder over `docLeaf` with no predicates and `limit(0)` set. -/
def qbLimitZero : QueryBuilder :=
  { handle := docLeaf, queries := [], limit := some 0, recursive := true }

/-- The element `b id="bold-tag"` with its text child. -/
def bNode : Node :=
  .mk (.element "b" [("id", "bold-tag")]) [.mk (.text "SOME BOLD TEXT") []]

/-- The tree the parser produces for
`div Test /div section b id="bold-tag" SOME BOLD TEXT /b /section`:
document, html, head, body, the div with its text, the section with the
bold element. -/
def sampleTree : Node :=
  .mk .document
    [.mk (.element "html" [])
      [.mk (.element "head" []) [],
       .mk (.element "body" [])
        [.mk (.element "div" []) [.mk (.text "Test") []],
         .mk (.element "section" []) [bNode]]]]

/-- The tree the parser produces for the scenario S2 fixture
`div id="baz quux" p class="foo bar" SOME TEXT /p /div`. -/
def s2Tree : Node :=
  .mk .document
    [.mk (.element "html" [])
      [.mk (.element "head" []) [],
       .mk (.element "body" [])
        [.mk (.element "div" [("id", "baz quux")])
          [.mk (.element "p" [("class", "foo bar")])
            [.mk (.text "SOME TEXT") []]]]]]

/-- An element whose `class` value contains a NO-BREAK SPACE (U+00A0):
Unicode whitespace but not ASCII whitespace. -/
def nbspNode : Node :=
  .mk (.element "div" [("class", "foo\u00A0bar")]) []

/-- A builder over `sampleTree` searching for tag `b`, no limit. -/
def qbTagB : QueryBuilder :=
  { handle := sampleTree, queries := [.tag (.lit "b")], limit := none, recursive := true }

/-- A builder over `sampleTree` with no predicates, non-recursive. -/
def qbShallow : QueryBuilder :=
  { handle := sampleTree, queries := [], limit := none, recursive := false }

/-- A builder over `sampleTree` with no predicates and `limit(2)`. -/
def qbLimitTwo : QueryBuilder :=
  { handle := sampleTree, queries := [], limit := some 2, recursive := true }

/-- A builder over `sampleTree` searching for tag `b` with `limit(1)`. -/
def qbLimitOne : QueryBuilder :=
  { handle := sampleTree, queries := [.tag (.lit "b")], limit := some 1, recursive := true }

/-- An attribute list with a duplicated name, in two casings. -/
def dupAttrs : List (String × String) :=
  [("id", "first"), ("ID", "second"), ("id", "third")]

/-- A two-query chain: the identity query under a tag query. -/
def qChain : List SoupQuery := [.unit, .tag (.lit "b")]

/-- The same two queries pushed in the opposite order. -/
def qChainSwapped : List SoupQuery := [.tag (.lit "b"), .unit]

/-! ### Lemmas about the traversal -/

/-- Tagging every list element with a match flag and flattening the
options is the same as filtering. -/
theorem filterMap_if_eq_filter (p : Node → Bool) (l : List Node) :
    (l.map (fun m => if p m then some m else none)).filterMap id = l.filter p := by
  induction l with
  | nil => rfl
  | cons a t ih =>
    by_cases h : p a <;> simp [List.filter_cons, h, ih]

mutual
/-- With an unbounded level budget, `build_iter` visits the whole
subtree in pre-order, tagging each node with its match flag. -/
theorem build_iter_none_eq (n : Node) (q : List SoupQuery) :
    build_iter n q none =
      (preorder n).map (fun m => if wrapperMatches q m then some m else none) := by
  cases n with
  | mk d cs =>
    rw [build_iter, preorder]
    simp only [List.map_cons]
    rw [if_neg (by simp), Option.map_none', build_iter_children_none_eq cs q,
      List.singleton_append]

/-- Forest version of `build_iter_none_eq`. -/
theorem build_iter_children_none_eq (cs : List Node) (q : List SoupQuery) :
    build_iter_children cs q none =
      (preorderList cs).map (fun m => if wrapperMatches q m then some m else none) := by
  cases cs with
  | nil => rw [build_iter_children, preorderList]; rfl
  | cons c rest =>
    rw [build_iter_children, preorderList, List.map_append,
      build_iter_none_eq c q, build_iter_children_none_eq rest q]
end

/-- With a level budget of zero, `build_iter` visits only the root. -/
theorem build_iter_zero_eq (n : Node) (q : List SoupQuery) :
    build_iter n q (some 0) =
      [if wrapperMatches q n then some n else none] := by
  cases n with
  | mk d cs => rw [build_iter, if_pos rfl]

/-- With a level budget of one, `build_iter` visits exactly the root and
its direct children, in order, tagging each with its match flag. -/
theorem build_iter_one_eq (n : Node) (q : List SoupQuery) :
    build_iter n q (some 1) =
      (n :: n.children).map (fun m => if wrapperMatches q m then some m else none) := by
  have children_zero : ∀ cs : List Node, build_iter_children cs q (some 0) =
      cs.map (fun m => if wrapperMatches q m then some m else none) := by
    intro cs
    induction cs with
    | nil => rw [build_iter_children]; rfl
    | cons c rest ih =>
      rw [build_iter_children, build_iter_zero_eq, ih]
      rfl
  cases n with
  | mk d cs =>
    rw [build_iter, if_neg (by simp), Node.children]
    simp only [List.map_cons]
    rw [show (some 1 : Option Nat).map (· - 1) = some 0 from rfl, children_zero cs,
      List.singleton_append]

/-- The iterator built by `into_iter` yields the matching nodes of the
visited sequence — the whole pre-order visit when recursive, the root
and its direct children otherwise — truncated by the limit. -/
theorem intoIter_eq (b : QueryBuilder) :
    b.intoIter = applyLimit b.limit
      ((if b.recursive then preorder b.handle
        else b.handle :: b.handle.children).filter (wrapperMatches b.queries)) := by
  rw [QueryBuilder.intoIter]
  cases hr : b.recursive
  · rw [if_neg (by simp), if_neg (by simp), build_iter_one_eq,
      filterMap_if_eq_filter]
  · rw [if_pos rfl, if_pos rfl, build_iter_none_eq, filterMap_if_eq_filter]

/-- The first item `find` yields is the head of the match stream: the
limit `find` installs is `Some(1)`, replacing whatever limit was set. -/
theorem find_eq (b : QueryBuilder) :
    b.find = (((if b.recursive then preorder b.handle
      else b.handle :: b.handle.children).filter
        (wrapperMatches b.queries)).take 1).head? := by
  rw [QueryBuilder.find, intoIter_eq]
  rfl

/-- C1.  For every tree and every query with no result limit set (and
the default recursive traversal — `recursive(false)` is the subject of
C4), the sequence of nodes yielded by `find_all` is exactly the
subsequence of the pre-order (document-order) DFS visit of the subtree
rooted at the handle consisting of the nodes satisfying the conjoined
predicate; being a filter of the visit sequence, each visited node is
yielded at most once. -/
theorem claim_C1 (b : QueryBuilder) (hl : b.limit = none) (hr : b.recursive = true) :
    b.find_all = (preorder b.handle).filter (wrapperMatches b.queries) := by
  rw [QueryBuilder.find_all, intoIter_eq, hl, hr, if_pos rfl]
  rfl

/-- Witness for C1 at a concrete builder. -/
theorem claim_C1_witness :
    qbTagB.limit = none ∧ qbTagB.recursive = true ∧
      qbTagB.find_all = (preorder qbTagB.handle).filter (wrapperMatches qbTagB.queries) :=
  ⟨rfl, rfl, claim_C1 qbTagB rfl rfl⟩

/-- C4.  For every query with `recursive(false)`, the yielded nodes are
exactly the matching ones among the root (depth 0) and its direct
children (depth 1), in order and under the limit; in particular no node
at depth 2 or greater below the root is ever yielded. -/
theorem claim_C4 (b : QueryBuilder) (hr : b.recursive = false) :
    b.find_all = applyLimit b.limit
      ((b.handle :: b.handle.children).filter (wrapperMatches b.queries)) := by
  rw [QueryBuilder.find_all, intoIter_eq, hr, if_neg (by simp)]

/-- Witness for C4 at a concrete builder. -/
theorem claim_C4_witness :
    qbShallow.recursive = false ∧
      qbShallow.find_all = applyLimit qbShallow.limit
        ((qbShallow.handle :: qbShallow.handle.children).filter
          (wrapperMatches qbShallow.queries)) :=
  ⟨rfl, claim_C4 qbShallow rfl⟩

/-- C5.  For every query on which `limit(n)` has been set, `find_all`
yields at most `n` matches (the yielded list has length at most `n`;
exhaustion afterwards is inherent in the list embedding of the
iterator). -/
theorem claim_C5 (b : QueryBuilder) (n : Nat) (h : b.limit = some n) :
    b.find_all.length ≤ n := by
  rw [QueryBuilder.find_all, intoIter_eq, h, applyLimit, List.length_take]
  exact Nat.min_le_left _ _

/-- Witness for C5 at a concrete builder. -/
theorem claim_C5_witness :
    qbLimitTwo.limit = some 2 ∧ qbLimitTwo.find_all.length ≤ 2 :=
  ⟨rfl, claim_C5 qbLimitTwo 2 rfl⟩

/-- C3, counterexample.  With `limit(0)` set and a matching root,
`find_all` yields zero matches while `find` — which overwrites the limit
with `Some(1)` — still returns a node, so the claimed equivalence fails
for that configuration. -/
theorem claim_C3_counterexample :
    ¬ (qbLimitZero.find = none ↔ qbLimitZero.find_all = []) := by
  intro h
  have h1 : qbLimitZero.find_all = [] := rfl
  have h2 : qbLimitZero.find = some docLeaf := rfl
  rw [h2] at h
  exact Option.noConfusion (h.mpr h1)

/-- C3, amended.  For every builder configuration whose limit is unset
or at least 1, `find` returns none iff `find_all` yields zero matches
(with `limit(0)` the equivalence fails, because `find` replaces the
limit with `Some(1)`). -/
theorem claim_C3_amended (b : QueryBuilder) (h : ∀ l, b.limit = some l → 1 ≤ l) :
    (b.find = none ↔ b.find_all = []) := by
  rw [find_eq, QueryBuilder.find_all, intoIter_eq]
  generalize (if b.recursive then preorder b.handle
    else b.handle :: b.handle.children).filter (wrapperMatches b.queries) = base
  have h1 : ((base.take 1).head? = none) ↔ base = [] := by
    cases base <;> simp
  have h2 : (applyLimit b.limit base = []) ↔ base = [] := by
    cases hb : b.limit with
    | none => rw [applyLimit]
    | some l =>
      have hl := h l hb
      rw [applyLimit]
      cases base with
      | nil => simp
      | cons x xs =>
        cases l with
        | zero => omega
        | succ m => simp
  rw [h1, h2]

/-- Witness for the amended C3 at a concrete builder with `limit(1)`. -/
theorem claim_C3_witness :
    (∀ l, qbLimitOne.limit = some l → 1 ≤ l) ∧
      (qbLimitOne.find = none ↔ qbLimitOne.find_all = []) :=
  ⟨fun _ hl => by injection hl with h; omega,
   claim_C3_amended qbLimitOne (fun _ hl => by injection hl with h; omega)⟩

/-- C7.  The predicate stack evaluates to true iff every atomic
predicate in it is true on the node; the empty stack is true on every
node (elements and non-elements alike); and the outcome is invariant
under permuting the order in which predicates were pushed. -/
theorem claim_C7 (q : List SoupQuery) (n : Node) :
    (wrapperMatches q n = true ↔ ∀ a ∈ q, a.qmatches n = true)
    ∧ wrapperMatches [] n = true
    ∧ ∀ q' : List SoupQuery, q.Perm q' →
        wrapperMatches q n = wrapperMatches q' n := by
  have key : ∀ r : List SoupQuery,
      (wrapperMatches r n = true ↔ ∀ a ∈ r, a.qmatches n = true) := by
    intro r
    induction r with
    | nil => simp [wrapperMatches]
    | cons a t ih =>
      simp only [wrapperMatches, Bool.and_eq_true, ih, List.forall_mem_cons]
      exact and_comm
  refine ⟨key q, rfl, ?_⟩
  intro q' hperm
  have hmem : (∀ a ∈ q, a.qmatches n = true) ↔ (∀ a ∈ q', a.qmatches n = true) := by
    constructor <;> intro hall a ha
    · exact hall a (hperm.symm.subset ha)
    · exact hall a (hperm.subset ha)
  cases hq : wrapperMatches q n with
  | true => exact ((key q').mpr (hmem.mp ((key q).mp hq))).symm
  | false =>
    cases hq' : wrapperMatches q' n with
    | false => rfl
    | true =>
      have hqt : wrapperMatches q n = true := (key q).mpr (hmem.mpr ((key q').mp hq'))
      rw [hq] at hqt
      exact Bool.noConfusion hqt

/-- Witness for C7 at a concrete chain, node, and permutation. -/
theorem claim_C7_witness :
    (wrapperMatches qChain bNode = true ↔ ∀ a ∈ qChain, a.qmatches bNode = true)
    ∧ wrapperMatches [] bNode = true
    ∧ wrapperMatches qChain bNode = wrapperMatches qChainSwapped bNode :=
  ⟨(claim_C7 qChain bNode).1, (claim_C7 qChain bNode).2.1,
   (claim_C7 qChain bNode).2.2 qChainSwapped (List.Perm.swap _ _ _)⟩

/-- C2, counterexample.  On a `div` whose `class` value separates two
tokens with NO-BREAK SPACE (U+00A0) — Unicode whitespace but not ASCII
whitespace — the implementation matches the value pattern `foo` (it
tokenizes with `char::is_whitespace`, i.e. Unicode white space), while
the tokenization by ASCII whitespace stated in the claim produces the
single token `foo&#xA0;bar` and does not match; `(div, class)` is a
list-aware pair, so the claimed equivalence fails at this input. -/
theorem claim_C2_counterexample :
    is_multiple "div" "class" = true
    ∧ list_aware_match nbspNode (.lit "class") (.lit "foo") = true
    ∧ specListAwareMatchAscii nbspNode (.lit "class") (.lit "foo") = false :=
  ⟨rfl, rfl, rfl⟩

/-- C2, amended.  For an element all of whose attributes with names
matching the key pattern form list-aware (tag, attribute) pairs — the
pairs being compared case-insensitively by `is_multiple` — the attribute
predicate matches iff some attribute has a name matching the key pattern
and a value that, tokenized by whitespace in the sense of Rust
`char::is_whitespace` (Unicode white space, not only ASCII) with each
token trimmed, has some token matching the value pattern. -/
theorem claim_C2_amended (name : String) (as : List (String × String))
    (cs : List Node) (k v : Pattern)
    (h : ∀ a ∈ as, k.matches a.1 = true → is_multiple name a.1 = true) :
    list_aware_match (.mk (.element name as) cs) k v = true ↔
      ∃ a ∈ as, k.matches a.1 = true ∧
        ∃ part ∈ rustSplit rustIsWhitespace a.2.data,
          v.matches ⟨rustTrim part⟩ = true := by
  show (as.any fun a => k.matches a.1 &&
      (if is_multiple name a.1 then match_list_attr v a.2
       else v.matches a.2)) = true ↔ _
  rw [List.any_eq_true]
  constructor
  · rintro ⟨a, ha, hm⟩
    rw [Bool.and_eq_true] at hm
    obtain ⟨hk, hv⟩ := hm
    rw [if_pos (h a ha hk)] at hv
    rw [match_list_attr, List.any_eq_true] at hv
    obtain ⟨part, hp, hmatch⟩ := hv
    exact ⟨a, ha, hk, part, hp, hmatch⟩
  · rintro ⟨a, ha, hk, part, hp, hmatch⟩
    refine ⟨a, ha, ?_⟩
    rw [Bool.and_eq_true]
    refine ⟨hk, ?_⟩
    rw [if_pos (h a ha hk), match_list_attr, List.any_eq_true]
    exact ⟨part, hp, hmatch⟩

/-- Witness for the amended C2 on a `div` with `class="foo bar"`. -/
theorem claim_C2_witness :
    (∀ a ∈ [("class", "foo bar")],
      Pattern.matches (.lit "class") a.1 = true → is_multiple "div" a.1 = true)
    ∧ (list_aware_match (.mk (.element "div" [("class", "foo bar")]) [])
          (.lit "class") (.lit "bar") = true ↔
        ∃ a ∈ [("class", "foo bar")],
          Pattern.matches (.lit "class") a.1 = true ∧
            ∃ part ∈ rustSplit rustIsWhitespace a.2.data,
              Pattern.matches (.lit "bar") ⟨rustTrim part⟩ = true) :=
  ⟨by decide, claim_C2_amended "div" [("class", "foo bar")] []
      (.lit "class") (.lit "bar") (by decide)⟩

/-- C6.  For an element none of whose attributes with names matching the
key pattern form list-aware (tag, attribute) pairs, the attribute
predicate matches the value pattern against the raw attribute value as a
whole; in particular, on the S2 fixture containing a `div` with
`id="baz quux"`, the query `attr("id","baz").find()` returns none. -/
theorem claim_C6 (name : String) (as : List (String × String))
    (cs : List Node) (k v : Pattern)
    (h : ∀ a ∈ as, k.matches a.1 = true → is_multiple name a.1 = false) :
    (list_aware_match (.mk (.element name as) cs) k v = true ↔
      ∃ a ∈ as, k.matches a.1 = true ∧ v.matches a.2 = true)
    ∧ ((QueryBuilder.new s2Tree).attr (.lit "id") (.lit "baz")).find = none := by
  constructor
  · show (as.any fun a => k.matches a.1 &&
        (if is_multiple name a.1 then match_list_attr v a.2
         else v.matches a.2)) = true ↔ _
    rw [List.any_eq_true]
    constructor
    · rintro ⟨a, ha, hm⟩
      rw [Bool.and_eq_true] at hm
      obtain ⟨hk, hv⟩ := hm
      rw [if_neg (by simp [h a ha hk])] at hv
      exact ⟨a, ha, hk, hv⟩
    · rintro ⟨a, ha, hk, hv⟩
      refine ⟨a, ha, ?_⟩
      rw [Bool.and_eq_true]
      exact ⟨hk, by rw [if_neg (by simp [h a ha hk])]; exact hv⟩
  · rfl

/-- Witness for C6 on a `div` with `id="baz quux"`. -/
theorem claim_C6_witness :
    (∀ a ∈ [("id", "baz quux")],
      Pattern.matches (.lit "id") a.1 = true → is_multiple "div" a.1 = false)
    ∧ ((list_aware_match (.mk (.element "div" [("id", "baz quux")]) [])
          (.lit "id") (.lit "baz") = true ↔
        ∃ a ∈ [("id", "baz quux")],
          Pattern.matches (.lit "id") a.1 = true ∧
            Pattern.matches (.lit "baz") a.2 = true)
       ∧ ((QueryBuilder.new s2Tree).attr (.lit "id") (.lit "baz")).find = none) :=
  ⟨by decide, claim_C6 "div" [("id", "baz quux")] [] (.lit "id") (.lit "baz")
      (by decide)⟩

/-- The first-match loop of `get` computes `find?` of the
case-insensitive name comparison, projected to the value. -/
theorem getLoop_eq_find (as : List (String × String)) (s : String) :
    getLoop as s =
      (as.find? (fun a => toLowerStr a.1 == toLowerStr s)).map Prod.snd := by
  induction as with
  | nil => rfl
  | cons a t ih =>
    cases h : (toLowerStr a.1 == toLowerStr s) <;>
      simp [getLoop, List.find?_cons, h, ih]

/-- The first-match loop of `get` only looks at the lowercased query
name, so queries with equal lowercasings agree. -/
theorem getLoop_congr (as : List (String × String)) (s t : String)
    (h : toLowerStr s = toLowerStr t) : getLoop as s = getLoop as t := by
  induction as with
  | nil => rfl
  | cons a rest ih => simp only [getLoop, h, ih]

/-- C8.  For every node and attribute name, `get` returns the value of
the first attribute whose name equals the query case-insensitively (via
lowercasing both), and none when no such attribute exists or the node is
not an element; in particular `get("ID")` and `get("id")` always return
the same value. -/
theorem claim_C8 (n : Node) (s : String) :
    NodeExt.get n s = (match n.data with
      | .element _ attrs =>
        (attrs.find? (fun a => toLowerStr a.1 == toLowerStr s)).map Prod.snd
      | _ => none)
    ∧ NodeExt.get n "ID" = NodeExt.get n "id" := by
  constructor
  · rw [NodeExt.get]
    cases hd : n.data <;> simp only [getLoop_eq_find]
  · rw [NodeExt.get, NodeExt.get]
    cases hd : n.data <;> first
      | rfl
      | exact getLoop_congr _ "ID" "id" rfl

/-- Looking up a key after a `BTreeMap` insertion finds the inserted
value for that key and is unchanged for every other key. -/
theorem btreeLookup_insert (m : List (String × String)) (k v x : String) :
    btreeLookup (btreeInsert m k v) x =
      if x = k then some v else btreeLookup m x := by
  induction m with
  | nil =>
    by_cases h : x = k <;> simp [btreeInsert, btreeLookup, h]
  | cons a t ih =>
    obtain ⟨q, w⟩ := a
    by_cases h1 : k < q
    · by_cases h : x = k <;> simp [btreeInsert, btreeLookup, h1, h]
    · by_cases h2 : k = q
      · subst h2
        by_cases h : x = k <;> simp [btreeInsert, btreeLookup, h1, h]
      · by_cases h : x = q
        · have hxk : ¬ x = k := fun hk => h2 (hk.symm.trans h)
          have hqk : ¬ q = k := fun e => h2 e.symm
          simp [btreeInsert, btreeLookup, h1, h2, h, hxk, hqk, ih]
        · simp [btreeInsert, btreeLookup, h1, h2, h, ih]

/-- Looking up a key after folding a sequence of insertions finds the
value of the last inserted pair with that key, falling back to the
initial map. -/
theorem btreeLookup_fold (as : List (String × String))
    (m : List (String × String)) (x : String) :
    btreeLookup (as.foldl (fun acc a => btreeInsert acc a.1 a.2) m) x =
      ((as.reverse.find? (fun a => a.1 == x)).map Prod.snd).or (btreeLookup m x) := by
  induction as generalizing m with
  | nil => rfl
  | cons a t ih =>
    rw [List.foldl_cons, ih, List.reverse_cons, List.find?_append,
      btreeLookup_insert]
    cases hf : t.reverse.find? (fun p => p.1 == x) with
    | some p => rfl
    | none =>
      by_cases h : x = a.1
      · simp [List.find?_cons, h, Option.none_or]
      · have hb : (a.1 == x) = false := beq_eq_false_iff_ne.mpr (fun e => h e.symm)
        simp [List.find?_cons, hb, h, Option.none_or]

/-- Every pair in the map built by an insertion was the inserted pair or
was already present. -/
theorem mem_btreeInsert (m : List (String × String)) (k v : String)
    (kv : String × String) (h : kv ∈ btreeInsert m k v) :
    kv = (k, v) ∨ kv ∈ m := by
  induction m with
  | nil => simp only [btreeInsert, List.mem_singleton] at h; exact Or.inl h
  | cons a t ih =>
    obtain ⟨q, w⟩ := a
    by_cases h1 : k < q
    · simp only [btreeInsert, if_pos h1] at h
      simpa using h
    · by_cases h2 : k = q
      · simp only [btreeInsert, if_neg h1, if_pos h2] at h
        rcases List.mem_cons.mp h with h | h
        · exact Or.inl h
        · exact Or.inr (List.mem_cons_of_mem _ h)
      · simp only [btreeInsert, if_neg h1, if_neg h2] at h
        rcases List.mem_cons.mp h with h | h
        · exact Or.inr (h ▸ List.mem_cons_self _ _)
        · rcases ih h with h | h
          · exact Or.inl h
          · exact Or.inr (List.mem_cons_of_mem _ h)

/-- Every pair in the map built by folding insertions over a pair list
is one of those pairs or comes from the initial map. -/
theorem mem_btreeFold (as : List (String × String))
    (m : List (String × String)) (kv : String × String)
    (h : kv ∈ as.foldl (fun acc a => btreeInsert acc a.1 a.2) m) :
    kv ∈ as ∨ kv ∈ m := by
  induction as generalizing m with
  | nil => exact Or.inr h
  | cons a t ih =>
    rw [List.foldl_cons] at h
    rcases ih _ h with h | h
    · exact Or.inl (List.mem_cons_of_mem _ h)
    · rcases mem_btreeInsert _ _ _ _ h with h | h
      · exact Or.inl (h ▸ List.mem_cons_self _ _)
      · exact Or.inr h

/-- C9.  For every element node: the map `attrs()` returns binds an
attribute name to the value of the last attribute with that exact name
in insertion order, while `get` with that name returns the value of the
first matching attribute compared case-insensitively; and every entry of
the map is one of the original (name, value) pairs verbatim, so keys
preserve the original case of names. -/
theorem claim_C9 (name : String) (as : List (String × String))
    (cs : List Node) (x : String) :
    btreeLookup (NodeExt.attrs (.mk (.element name as) cs)) x =
        (as.reverse.find? (fun a => a.1 == x)).map Prod.snd
    ∧ NodeExt.get (.mk (.element name as) cs) x =
        (as.find? (fun a => toLowerStr a.1 == toLowerStr x)).map Prod.snd
    ∧ ∀ kv ∈ NodeExt.attrs (.mk (.element name as) cs), kv ∈ as := by
  refine ⟨?_, getLoop_eq_find as x, ?_⟩
  · show btreeLookup (as.foldl (fun acc a => btreeInsert acc a.1 a.2) []) x = _
    rw [btreeLookup_fold]
    cases hf : as.reverse.find? (fun a => a.1 == x) <;> rfl
  · intro kv hkv
    have hm : kv ∈ as.foldl (fun acc a => btreeInsert acc a.1 a.2) [] := hkv
    rcases mem_btreeFold as [] kv hm with h | h
    · exact h
    · cases h

/-- Witness for C9 on an element with a duplicated attribute name. -/
theorem claim_C9_witness :
    btreeLookup (NodeExt.attrs (.mk (.element "div" dupAttrs) [])) "id" =
        (dupAttrs.reverse.find? (fun a => a.1 == "id")).map Prod.snd
    ∧ NodeExt.get (.mk (.element "div" dupAttrs) []) "id" =
        (dupAttrs.find? (fun a => toLowerStr a.1 == toLowerStr "id")).map Prod.snd
    ∧ ∀ kv ∈ NodeExt.attrs (.mk (.element "div" dupAttrs) []), kv ∈ dupAttrs :=
  claim_C9 "div" dupAttrs [] "id"

/-- C10.  Calling `parent` leaves the parent back-reference cell
observationally unchanged — the implementation takes the weak cell and
restores the taken value before returning — so a repeated call sees the
same cell and returns the same handle. -/
theorem claim_C10 (cell : ParentCell) :
    (NodeExt.parent cell).1 = cell
    ∧ NodeExt.parent (NodeExt.parent cell).1 = NodeExt.parent cell :=
  ⟨rfl, rfl⟩

end Soup
